import Mathlib

/-!
Verification of the analike market-data engine against its specification.

The definitions below are a shallow embedding of the JavaScript source:

* `src/src/TwelveDataPage.jsx` — indicator pipeline (`calculateEMA`,
  `calculateRSI`), divergence detection (`detectDivergence`) and the
  signal classifier (`getSignal`);
* `src/src/services/api.js` — the request governor (cache, rate limiter),
  the price-history store (`savePriceHistory`) and the market-data
  orchestration with retry and fallback (`getMarketData`).

Prices and indicator values are modelled as rationals (JavaScript numbers
behave as exact arithmetic on the inputs considered here); timestamps are
naturals (milliseconds).  JavaScript `Map`s and `localStorage` are
modelled as association lists.
-/

namespace Analike

/-! ### Configuration constants (src/src/services/api.js, RATE_LIMIT) -/

structure RateLimitConfig where
  MAX_CALLS_PER_MINUTE : ℕ
  MIN_INTERVAL : ℕ
  CACHE_DURATION : ℕ
  MAX_RETRIES : ℕ
  RETRY_DELAY : ℕ
  deriving DecidableEq, Repr

/-- `RATE_LIMIT` from `api.js`: 30 calls/minute, 2 s between calls,
1 minute cache, 2 retries, 5 s retry delay. -/
def RATE_LIMIT : RateLimitConfig :=
  { MAX_CALLS_PER_MINUTE := 30
    MIN_INTERVAL := 2000
    CACHE_DURATION := 60000
    MAX_RETRIES := 2
    RETRY_DELAY := 5000 }

/-- `MAX_HISTORY_DAYS` from `api.js` (90 days retained). -/
def MAX_HISTORY_DAYS : ℕ := 90

/-! ### IndicatorPipeline (src/src/TwelveDataPage.jsx)

`calculateEMA` and `calculateRSI` in the source operate on arrays of
objects carrying a `price` field and attach `ema20` / `rsi` fields.  The
embedding maps the list of prices to the list of attached indicator
values; all other object fields are carried through unchanged by the
source (`data.map(item => ({...item}))`) and play no role. -/

/-- One step of the EMA recurrence from `calculateEMA`:
`ema[i] = price[i] * multiplier + ema[i-1] * (1 - multiplier)`. -/
def emaStep (multiplier prev p : ℚ) : ℚ :=
  p * multiplier + prev * (1 - multiplier)

/-- The loop of `calculateEMA` producing `ema[1..]` from `ema[0]`. -/
def emaFrom (multiplier e0 : ℚ) : List ℚ → List ℚ
  | [] => []
  | p :: ps =>
    let e := emaStep multiplier e0 p
    e :: emaFrom multiplier e ps

/-- `calculateEMA(data, period)` from `TwelveDataPage.jsx`:
`multiplier = 2/(period+1)`, `ema[0] = price[0]`, then the recurrence.
On an empty array the source dereferences `emaData[0]` and throws
(a `TypeError`), modelled as `none`. -/
def calculateEMA (data : List ℚ) (period : ℕ) : Option (List ℚ) :=
  match data with
  | [] => none
  | p0 :: ps => some (p0 :: emaFrom (2 / ((period : ℚ) + 1)) p0 ps)

/-- The `changes` array of `calculateRSI`: consecutive price deltas. -/
def priceChanges : List ℚ → List ℚ
  | a :: b :: rest => (b - a) :: priceChanges (b :: rest)
  | _ => []

/-- The seeding loop of `calculateRSI` for gains:
`if (changes[i] > 0) avgGain += changes[i]`. -/
def gainsSum (cs : List ℚ) : ℚ :=
  (cs.map (fun c => if c > 0 then c else 0)).sum

/-- The seeding loop of `calculateRSI` for losses:
`else avgLoss += Math.abs(changes[i])` (the `else` branch also receives
zero deltas, contributing `0`). -/
def lossSum (cs : List ℚ) : ℚ :=
  (cs.map (fun c => if c > 0 then 0 else -c)).sum

/-- The RSI value computed from a pair of averages in `calculateRSI`:
`rs = avgLoss === 0 ? 100 : avgGain / avgLoss; rsi = 100 - 100/(1+rs)`. -/
def rsiOf (avgGain avgLoss : ℚ) : ℚ :=
  let rs := if avgLoss = 0 then 100 else avgGain / avgLoss
  100 - 100 / (1 + rs)

/-- The smoothing loop of `calculateRSI` over the deltas after the seed
window: `avg = (avg*(period-1) + component)/period`, RSI recomputed at
each step. -/
def wilderTail (period : ℕ) (avgGain avgLoss : ℚ) : List ℚ → List ℚ
  | [] => []
  | c :: cs =>
    let gain := if c > 0 then c else 0
    let loss := if c < 0 then -c else 0
    let g := (avgGain * ((period : ℚ) - 1) + gain) / (period : ℚ)
    let l := (avgLoss * ((period : ℚ) - 1) + loss) / (period : ℚ)
    rsiOf g l :: wilderTail period g l cs

/-- `calculateRSI(data, period)` from `TwelveDataPage.jsx`, mapping the
price list to the list of attached `rsi` values.  With fewer than
`period+1` points every element receives the neutral value 50; otherwise
indices `0..period-1` are backfilled with 50, index `period` carries the
RSI of the seeded averages and later indices follow Wilder smoothing. -/
def calculateRSI (data : List ℚ) (period : ℕ) : List ℚ :=
  if data.length < period + 1 then data.map (fun _ => 50)
  else
    List.replicate period 50 ++
      (rsiOf (gainsSum ((priceChanges data).take period) / (period : ℚ))
          (lossSum ((priceChanges data).take period) / (period : ℚ)) ::
        wilderTail period (gainsSum ((priceChanges data).take period) / (period : ℚ))
          (lossSum ((priceChanges data).take period) / (period : ℚ))
          ((priceChanges data).drop period))

/-! ### Lemmas about the indicator pipeline -/

theorem emaFrom_length (m : ℚ) :
    ∀ (ps : List ℚ) (e0 : ℚ), (emaFrom m e0 ps).length = ps.length
  | [], _ => rfl
  | p :: ps, e0 => by simp [emaFrom, emaFrom_length m ps]

theorem emaFrom_getD (m : ℚ) :
    ∀ (ps : List ℚ) (e0 : ℚ) (i : ℕ), i < ps.length →
      (e0 :: emaFrom m e0 ps).getD (i + 1) 0 =
        emaStep m ((e0 :: emaFrom m e0 ps).getD i 0) (ps.getD i 0)
  | p :: ps, e0, 0, _ => by simp [emaFrom]
  | p :: ps, e0, i + 1, h => by
    have ih := emaFrom_getD m ps (emaStep m e0 p) i (by simpa using h)
    simpa [emaFrom] using ih

theorem priceChanges_length : ∀ data : List ℚ, (priceChanges data).length = data.length - 1
  | [] => rfl
  | [_] => rfl
  | a :: b :: rest => by
    have ih := priceChanges_length (b :: rest)
    simp [priceChanges] at ih ⊢
    omega

theorem priceChanges_nonneg :
    ∀ {data : List ℚ}, List.Chain' (· ≤ ·) data → ∀ c ∈ priceChanges data, 0 ≤ c
  | [], _, c, hc => by simp [priceChanges] at hc
  | [_], _, c, hc => by simp [priceChanges] at hc
  | a :: b :: rest, h, c, hc => by
    rw [priceChanges] at hc
    rcases List.mem_cons.1 hc with rfl | hc
    · have hab : a ≤ b := (List.chain'_cons.1 h).1
      linarith
    · exact priceChanges_nonneg (List.chain'_cons.1 h).2 c hc

theorem lossSum_eq_zero : ∀ {cs : List ℚ}, (∀ c ∈ cs, 0 ≤ c) → lossSum cs = 0
  | [], _ => rfl
  | c :: cs, h => by
    have hc : 0 ≤ c := h c (List.mem_cons_self c cs)
    have ih := lossSum_eq_zero (fun x hx => h x (List.mem_cons_of_mem c hx))
    simp only [lossSum, List.map_cons, List.sum_cons] at ih ⊢
    rcases lt_or_eq_of_le hc with hlt | heq
    · simp [hlt, ih]
    · simp [← heq, ih]

theorem rsiOf_avgLoss_zero (g : ℚ) : rsiOf g 0 = 10000 / 101 := by
  simp [rsiOf]
  norm_num

theorem take_replicate_append (n : ℕ) (v : ℚ) (l : List ℚ) :
    (List.replicate n v ++ l).take n = List.replicate n v := by
  have h := List.take_left (List.replicate n v) l
  rwa [List.length_replicate] at h

theorem wilderTail_avgLoss_zero :
    ∀ (cs : List ℚ), (∀ c ∈ cs, 0 ≤ c) → ∀ (k : ℕ) (g : ℚ),
      wilderTail k g 0 cs = List.replicate cs.length (10000 / 101)
  | [], _, _, _ => rfl
  | c :: cs, h, k, g => by
    have hc : 0 ≤ c := h c (List.mem_cons_self c cs)
    have hnc : ¬c < 0 := not_lt.2 hc
    have ih := wilderTail_avgLoss_zero cs (fun x hx => h x (List.mem_cons_of_mem c hx)) k
      ((g * ((k : ℚ) - 1) + if c > 0 then c else 0) / (k : ℚ))
    simp only [wilderTail, hnc, if_false, List.length_cons, List.replicate_succ]
    rw [show (0 * ((k : ℚ) - 1) + 0) / (k : ℚ) = 0 by simp]
    rw [rsiOf_avgLoss_zero, ih]

/-! ### Claim theorems: indicator pipeline -/

/-- Claim C4: for every non-empty price sequence `p` and period `k`, the EMA
series `e` has `len(e) = len(p)`, `e[0] = p[0]`, and satisfies
`e[i] = α·p[i] + (1-α)·e[i-1]` with `α = 2/(k+1)` for every `i ≥ 1`;
moreover `EMA([10,20,30], 3) = [10, 15, 22.5]`. -/
theorem claim_C4_ema_contract :
    (∀ (data : List ℚ) (period : ℕ), data ≠ [] →
      ((calculateEMA data period).getD []).length = data.length ∧
      ((calculateEMA data period).getD []).getD 0 0 = data.getD 0 0 ∧
      (∀ i, i + 1 < data.length →
        ((calculateEMA data period).getD []).getD (i + 1) 0 =
          data.getD (i + 1) 0 * (2 / ((period : ℚ) + 1)) +
            ((calculateEMA data period).getD []).getD i 0 *
              (1 - 2 / ((period : ℚ) + 1)))) ∧
    calculateEMA [10, 20, 30] 3 = some [10, 15, 45 / 2] := by
  constructor
  · intro data period hne
    match data with
    | [] => exact absurd rfl hne
    | p0 :: ps =>
      refine ⟨by simp [calculateEMA, emaFrom_length], by simp [calculateEMA], ?_⟩
      intro i hi
      have h := emaFrom_getD (2 / ((period : ℚ) + 1)) ps p0 i (by simpa using hi)
      simp only [calculateEMA, Option.getD_some]
      rw [h]
      simp [emaStep]
  · norm_num [calculateEMA, emaFrom, emaStep]

theorem claim_C4_ema_contract_witness :
    ((calculateEMA [10, 20, 30] 3).getD []).length = 3 :=
  (claim_C4_ema_contract.1 [10, 20, 30] 3 (by simp)).1

/-- Claim C5: with fewer than `period+1` points every RSI value is the
neutral 50; with at least `period+1` points, indices `0..period-1` are
assigned 50. -/
theorem claim_C5_rsi_neutral_fill :
    (∀ (data : List ℚ) (period : ℕ), data.length < period + 1 →
      calculateRSI data period = List.replicate data.length 50) ∧
    (∀ (data : List ℚ) (period : ℕ), period + 1 ≤ data.length →
      (calculateRSI data period).take period = List.replicate period 50) := by
  constructor
  · intro data period h
    rw [calculateRSI, if_pos h]
    simp
  · intro data period h
    rw [calculateRSI, if_neg (by omega)]
    exact take_replicate_append _ _ _

theorem claim_C5_rsi_neutral_fill_witness :
    calculateRSI [1, 2] 14 = [50, 50] ∧
    (calculateRSI [0, 1, 2, 3, 4, 5, 6, 7, 8, 9, 10, 11, 12, 13, 14] 14).take 14 =
      List.replicate 14 50 := by
  constructor
  · exact (claim_C5_rsi_neutral_fill.1 [1, 2] 14 (by simp)).trans (by simp)
  · exact claim_C5_rsi_neutral_fill.2 [0, 1, 2, 3, 4, 5, 6, 7, 8, 9, 10, 11, 12, 13, 14] 14
      (by simp)

/-- Claim C3 is false as stated: on the strictly increasing 15-point
sequence `0..14` with period 14 the smoothed average loss at index 14 is
0, yet the computed RSI there is `10000/101 ≈ 99.0099`, not 100 — the
source caps `RS` at 100 instead of letting it saturate. -/
theorem claim_C3_counterexample :
    (calculateRSI [0, 1, 2, 3, 4, 5, 6, 7, 8, 9, 10, 11, 12, 13, 14] 14).getD 14 0 =
      10000 / 101 ∧
    (10000 / 101 : ℚ) ≠ 100 := by
  constructor
  · norm_num [calculateRSI, priceChanges, gainsSum, lossSum, wilderTail, rsiOf,
      List.replicate]
  · norm_num

/-- Claim C3 (amended): at every index where the smoothed average loss is 0
(all deltas in scope non-negative), the computed RSI equals `10000/101`
(≈ 99.01) — `RS` is capped at 100 rather than saturating to give 100.  In
particular on any non-decreasing price sequence every RSI value from index
`period` on equals `10000/101`. -/
theorem claim_C3_amended :
    (∀ g : ℚ, rsiOf g 0 = 10000 / 101) ∧
    (∀ (data : List ℚ) (period : ℕ), List.Chain' (· ≤ ·) data →
      period + 1 ≤ data.length → ∀ i, period ≤ i → i < data.length →
        (calculateRSI data period).getD i 0 = 10000 / 101) := by
  refine ⟨rsiOf_avgLoss_zero, ?_⟩
  intro data period hchain hlen i hpi hil
  rw [calculateRSI, if_neg (by omega)]
  have hnn : ∀ c ∈ priceChanges data, 0 ≤ c := priceChanges_nonneg hchain
  have hL : lossSum ((priceChanges data).take period) = 0 :=
    lossSum_eq_zero (fun c hc => hnn c (List.take_subset _ _ hc))
  rw [hL, zero_div]
  rw [wilderTail_avgLoss_zero _ (fun c hc => hnn c (List.drop_subset _ _ hc))]
  rw [rsiOf_avgLoss_zero]
  rw [List.getD_append_right _ _ _ _ (by simpa using hpi)]
  have hlen' : (priceChanges data).length = data.length - 1 := priceChanges_length data
  rw [show (10000 / 101 : ℚ) :: List.replicate ((priceChanges data).drop period).length
      (10000 / 101 : ℚ) =
      List.replicate (((priceChanges data).drop period).length + 1) (10000 / 101 : ℚ) by
    simp [List.replicate_succ]]
  rw [List.getD_eq_getElem _ _ (by simp; omega)]
  simp

theorem claim_C3_amended_witness :
    (calculateRSI [0, 1, 2, 3, 4, 5, 6, 7, 8, 9, 10, 11, 12, 13, 14, 15] 14).getD 15 0 =
      10000 / 101 :=
  claim_C3_amended.2 [0, 1, 2, 3, 4, 5, 6, 7, 8, 9, 10, 11, 12, 13, 14, 15] 14
    (by norm_num) (by simp) 15 (by norm_num) (by simp)

/-! ### DivergenceDetector (src/src/TwelveDataPage.jsx, detectDivergence) -/

/-- A chart point as consumed by `detectDivergence` and `getSignal`: a
candle carrying the attached `ema20`/`rsi` indicator values (only `price`
and `rsi` are read by the detector). -/
structure Frame where
  price : ℚ
  rsi : ℚ
  deriving DecidableEq, Repr

/-- The `type` strings returned by `detectDivergence`. -/
inductive DivType
  | none
  | bearish_divergence
  | bullish_divergence
  | hidden_bearish_divergence
  | hidden_bullish_divergence
  deriving DecidableEq, Repr

structure DivergenceResult where
  type : DivType
  strength : ℚ
  deriving DecidableEq, Repr

/-- Array indexing inside the peak scan; all accesses are guarded by
`2 ≤ i` and `i + 2 < length`, so the default is never read. -/
def valAt (xs : List ℚ) (i : ℕ) : ℚ := xs.getD i 0

/-- The local-maximum test of `detectDivergence`:
`xs[i] > xs[i±1]` and `xs[i] > xs[i±2]`. -/
def isLocalMax (xs : List ℚ) (i : ℕ) : Bool :=
  decide (valAt xs (i - 1) < valAt xs i) && decide (valAt xs (i + 1) < valAt xs i) &&
    decide (valAt xs (i - 2) < valAt xs i) && decide (valAt xs (i + 2) < valAt xs i)

/-- The local-minimum test of `detectDivergence`:
`xs[i] < xs[i±1]` and `xs[i] < xs[i±2]`. -/
def isLocalMin (xs : List ℚ) (i : ℕ) : Bool :=
  decide (valAt xs i < valAt xs (i - 1)) && decide (valAt xs i < valAt xs (i + 1)) &&
    decide (valAt xs i < valAt xs (i - 2)) && decide (valAt xs i < valAt xs (i + 2))

/-- The scan `for (i = 2; i < recent.length - 2; i++)` collecting
`{index, value}` peak records in order. -/
def localPeaks (xs : List ℚ) : List (ℕ × ℚ) :=
  ((List.range xs.length).filter fun i =>
      decide (2 ≤ i) && decide (i + 2 < xs.length) && isLocalMax xs i).map
    fun i => (i, valAt xs i)

/-- The scan collecting `{index, value}` trough records in order. -/
def localTroughs (xs : List ℚ) : List (ℕ × ℚ) :=
  ((List.range xs.length).filter fun i =>
      decide (2 ≤ i) && decide (i + 2 < xs.length) && isLocalMin xs i).map
    fun i => (i, valAt xs i)

/-- The two most recent extrema `(previous, latest)` of an extremum list,
available only when the list has length ≥ 2 (the `length >= 2` guards). -/
def lastTwo (l : List (ℕ × ℚ)) : Option ((ℕ × ℚ) × (ℕ × ℚ)) :=
  match l.reverse with
  | last :: prev :: _ => some (prev, last)
  | _ => none

/-- One comparison block of `detectDivergence`: compare the latest and
previous extrema of the price and RSI series with the given conditions;
on a match, strength is `|Δprice| / prevPrice * 100` capped at 100. -/
def checkDiv (kind : DivType) (priceExt rsiExt : List (ℕ × ℚ))
    (pCond rCond : ℚ → ℚ → Bool) : Option DivergenceResult :=
  match lastTwo priceExt, lastTwo rsiExt with
  | some (prevP, lastP), some (prevR, lastR) =>
    if pCond prevP.2 lastP.2 && rCond prevR.2 lastR.2 then
      some ⟨kind, min (|lastP.2 - prevP.2| / prevP.2 * 100) 100⟩
    else none
  | _, _ => none

/-- `detectDivergence(data, lookback = 10)` from `TwelveDataPage.jsx`.
Fewer than `lookback + 5` points yield `{type: none, strength: 0}`;
otherwise the last `lookback` points are scanned for price/RSI extrema and
the four divergence patterns are tried in source order (regular bearish,
regular bullish, hidden bearish, hidden bullish; first match wins).
`data.slice(-lookback)` returns the whole array when `lookback = 0`. -/
def detectDivergence (data : List Frame) (lookback : ℕ) : DivergenceResult :=
  if data.length < lookback + 5 then ⟨.none, 0⟩
  else
    let recent := if lookback = 0 then data else data.drop (data.length - lookback)
    let prices := recent.map (·.price)
    let rsis := recent.map (·.rsi)
    ((((checkDiv .bearish_divergence (localPeaks prices) (localPeaks rsis)
          (fun prev last => decide (prev < last)) (fun prev last => decide (last < prev))) <|>
        checkDiv .bullish_divergence (localTroughs prices) (localTroughs rsis)
          (fun prev last => decide (last < prev)) (fun prev last => decide (prev < last))) <|>
        checkDiv .hidden_bearish_divergence (localPeaks prices) (localPeaks rsis)
          (fun prev last => decide (last < prev)) (fun prev last => decide (prev < last))) <|>
        checkDiv .hidden_bullish_divergence (localTroughs prices) (localTroughs rsis)
          (fun prev last => decide (prev < last)) (fun prev last => decide (last < prev))).getD
      ⟨.none, 0⟩

/-! ### SignalClassifier (src/src/TwelveDataPage.jsx, getSignal) -/

/-- The `signal` labels produced by `getSignal`. -/
inductive SignalKind
  | STRONG_BUY
  | BUY
  | WEAK_BUY
  | HOLD
  | WEAK_SELL
  | SELL
  | STRONG_SELL
  deriving DecidableEq, Repr

inductive Mode
  | conservative
  | normal
  deriving DecidableEq, Repr

structure ModeSettings where
  rsiOverbought : ℚ
  rsiOversold : ℚ
  divergenceThreshold : ℚ
  deriving DecidableEq, Repr

/-- The `modeSettings` table of `getSignal`: conservative `(75, 25, 40)`,
normal `(70, 30, 30)`. -/
def modeSettings : Mode → ModeSettings
  | .conservative => ⟨75, 25, 40⟩
  | .normal => ⟨70, 30, 30⟩

/-- `getSignal(price, ema, rsi, previousPrice, previousEMA, chartData, mode)`
from `TwelveDataPage.jsx`, mapped to its `signal` label.  A falsy (zero)
value among the five numeric inputs short-circuits to the basic
price-vs-EMA rule.  Otherwise the source's nested conditionals are
reproduced: overbought+falling SELL family, oversold+rising BUY family,
the neutral-zone rules, the fallback rules, and the final HOLD. -/
def getSignal (price ema rsi previousPrice previousEMA : ℚ)
    (chartData : List Frame) (mode : Mode) : SignalKind :=
  if price = 0 ∨ ema = 0 ∨ rsi = 0 ∨ previousPrice = 0 ∨ previousEMA = 0 then
    if ema < price then .BUY else .SELL
  else
    let settings := modeSettings mode
    let divergence := detectDivergence chartData 10
    if settings.rsiOverbought < rsi ∧
        (price < previousPrice ∧ price * (1 / 1000) < previousPrice - price) then
      if divergence.type = DivType.bearish_divergence ∧
          settings.divergenceThreshold < divergence.strength then .STRONG_SELL
      else if ema < price then .SELL
      else .WEAK_SELL
    else if rsi < settings.rsiOversold ∧
        (previousPrice < price ∧ price * (1 / 1000) < price - previousPrice) then
      if divergence.type = DivType.bullish_divergence ∧
          settings.divergenceThreshold < divergence.strength then .STRONG_BUY
      else if ¬ema < price then .BUY
      else .WEAK_BUY
    else if settings.rsiOversold ≤ rsi ∧ rsi ≤ settings.rsiOverbought then
      if divergence.type = DivType.hidden_bullish_divergence ∧
          settings.divergenceThreshold < divergence.strength then .STRONG_BUY
      else if divergence.type = DivType.hidden_bearish_divergence ∧
          settings.divergenceThreshold < divergence.strength then .STRONG_SELL
      else if ema < price ∧
          (previousPrice < price ∧ price * (1 / 1000) < price - previousPrice) ∧
          (previousEMA < ema ∧ ema * (2 / 1000) < ema - previousEMA) then .STRONG_BUY
      else if ¬ema < price ∧
          (price < previousPrice ∧ price * (1 / 1000) < previousPrice - price) ∧
          (ema < previousEMA ∧ ema * (2 / 1000) < previousEMA - ema) then .STRONG_SELL
      else if ema < price ∧
          (previousPrice < price ∧ price * (1 / 1000) < price - previousPrice) ∧
          |ema - previousEMA| < ema * (1 / 1000) then .BUY
      else if ¬ema < price ∧
          (price < previousPrice ∧ price * (1 / 1000) < previousPrice - price) ∧
          |ema - previousEMA| < ema * (1 / 1000) then .SELL
      else if ema < price ∧
          ¬(previousPrice < price ∧ price * (1 / 1000) < price - previousPrice) ∧
          (previousEMA < ema ∧ ema * (2 / 1000) < ema - previousEMA) then .HOLD
      else if ¬ema < price ∧
          (previousPrice < price ∧ price * (1 / 1000) < price - previousPrice) ∧
          (ema < previousEMA ∧ ema * (2 / 1000) < previousEMA - ema) then .WEAK_BUY
      else if (|price - ema| < |previousPrice - previousEMA| ∧
            |price - ema| < price * (2 / 100)) ∧
          (previousEMA < ema ∧ ema * (2 / 1000) < ema - previousEMA) then .BUY
      else if (|price - ema| < |previousPrice - previousEMA| ∧
            |price - ema| < price * (2 / 100)) ∧
          (ema < previousEMA ∧ ema * (2 / 1000) < previousEMA - ema) then .SELL
      else .HOLD
    else
      if ema < price ∧
          (previousPrice < price ∧ price * (1 / 1000) < price - previousPrice) then
        .STRONG_BUY
      else if ¬ema < price ∧
          (price < previousPrice ∧ price * (1 / 1000) < previousPrice - price) then
        .STRONG_SELL
      else if ema < price ∧
          ¬(previousPrice < price ∧ price * (1 / 1000) < price - previousPrice) then
        .HOLD
      else if ¬ema < price ∧
          (previousPrice < price ∧ price * (1 / 1000) < price - previousPrice) then
        .WEAK_BUY
      else .HOLD

/-! ### Claim theorems: divergence detector and signal classifier -/

/-- Claim C7: for every frame sequence with fewer than `lookback + 5`
points (default lookback 10, so fewer than 15 points), the divergence
detector returns kind `none` with strength 0. -/
theorem claim_C7_divergence_short_input (data : List Frame) (lookback : ℕ)
    (h : data.length < lookback + 5) :
    detectDivergence data lookback = ⟨DivType.none, 0⟩ := by
  rw [detectDivergence, if_pos h]

theorem claim_C7_divergence_short_input_witness :
    detectDivergence [⟨100, 50⟩, ⟨101, 55⟩] 10 = ⟨DivType.none, 0⟩ :=
  claim_C7_divergence_short_input [⟨100, 50⟩, ⟨101, 55⟩] 10 (by simp)

/-- Claim C8 is false as stated: at `price = 110, ema = 100, rsi = 0,
prevPrice = 105, prevEma = 100` (normal mode, empty series) the RSI is
below the oversold threshold (`0 < 30`) and the price is rising by more
than 0.1%, and no bullish divergence qualifies, so the claim predicts
`WEAK_BUY` (price above EMA); but `rsi = 0` is falsy in JavaScript, so the
code takes the missing-input branch and returns `BUY`. -/
theorem claim_C8_counterexample :
    (0 : ℚ) < 30 ∧ (105 : ℚ) < 110 ∧ (110 : ℚ) * (1 / 1000) < 110 - 105 ∧
    detectDivergence [] 10 = ⟨DivType.none, 0⟩ ∧
    getSignal 110 100 0 105 100 [] Mode.normal = SignalKind.BUY ∧
    getSignal 110 100 0 105 100 [] Mode.normal ≠ SignalKind.WEAK_BUY := by
  refine ⟨by norm_num, by norm_num, by norm_num, ?_, ?_, ?_⟩
  · rw [detectDivergence, if_pos (by simp)]
  · norm_num [getSignal]
  · norm_num [getSignal]
    decide

/-- Claim C8 (amended): provided the five numeric inputs are all nonzero
(a zero value takes the missing-input branch instead), whenever RSI is
below the mode's oversold threshold and the price is rising by more than
0.1%, the classifier returns `STRONG_BUY` if bullish divergence strength
exceeds the mode threshold, else `BUY` if the price is not above the EMA,
else `WEAK_BUY`. -/
theorem claim_C8_amended (price ema rsi previousPrice previousEMA : ℚ)
    (chartData : List Frame) (mode : Mode)
    (hp : price ≠ 0) (he : ema ≠ 0) (hr : rsi ≠ 0)
    (hpp : previousPrice ≠ 0) (hpe : previousEMA ≠ 0)
    (hov : rsi < (modeSettings mode).rsiOversold)
    (hrise : previousPrice < price ∧ price * (1 / 1000) < price - previousPrice) :
    getSignal price ema rsi previousPrice previousEMA chartData mode =
      if (detectDivergence chartData 10).type = DivType.bullish_divergence ∧
          (modeSettings mode).divergenceThreshold < (detectDivergence chartData 10).strength
        then SignalKind.STRONG_BUY
      else if ¬ema < price then SignalKind.BUY
      else SignalKind.WEAK_BUY := by
  have hguard : ¬(price = 0 ∨ ema = 0 ∨ rsi = 0 ∨ previousPrice = 0 ∨ previousEMA = 0) := by
    simp [hp, he, hr, hpp, hpe]
  cases mode with
  | conservative =>
    simp only [modeSettings] at hov ⊢
    simp only [getSignal, modeSettings]
    rw [if_neg hguard, if_neg (by rintro ⟨h75, _⟩; linarith), if_pos ⟨hov, hrise⟩]
  | normal =>
    simp only [modeSettings] at hov ⊢
    simp only [getSignal, modeSettings]
    rw [if_neg hguard, if_neg (by rintro ⟨h70, _⟩; linarith), if_pos ⟨hov, hrise⟩]

theorem claim_C8_amended_witness :
    getSignal 110 100 20 105 100 [] Mode.normal = SignalKind.WEAK_BUY :=
  (claim_C8_amended 110 100 20 105 100 [] Mode.normal (by norm_num) (by norm_num)
    (by norm_num) (by norm_num) (by norm_num) (by norm_num [modeSettings])
    ⟨by norm_num, by norm_num⟩).trans
    (by norm_num [detectDivergence, modeSettings])

/-- Claim C10: a zero `rsi` (a legitimate fully-oversold value) or a zero
`price` is falsy, so even with a previous sample present the classifier
takes the missing-input branch and returns `BUY` if `price > ema`, else
`SELL`, never consulting RSI thresholds, divergence, or mode settings. -/
theorem claim_C10_falsy_inputs (price ema rsi previousPrice previousEMA : ℚ)
    (chartData : List Frame) (mode : Mode) (h : rsi = 0 ∨ price = 0) :
    getSignal price ema rsi previousPrice previousEMA chartData mode =
      if ema < price then SignalKind.BUY else SignalKind.SELL := by
  rw [getSignal, if_pos (by tauto)]

theorem claim_C10_falsy_inputs_witness :
    getSignal 110 100 0 105 100 [] Mode.conservative = SignalKind.BUY :=
  (claim_C10_falsy_inputs 110 100 0 105 100 [] Mode.conservative (Or.inl rfl)).trans
    (by norm_num)

/-! ### RequestGovernor: rate limiter (src/src/services/api.js)

The module-level mutable variables `lastApiCall`, `callCount`, `resetTime`
form the limiter state; `Date.now()` is passed explicitly.  A
`getStockPrice`/`getStockHistory` cache miss runs `canMakeApiCall`, awaits
`waitForNextCall` when it refuses, then stamps `lastApiCall` and
increments `callCount` as the vendor call departs. -/

structure RLState where
  lastApiCall : ℕ
  callCount : ℕ
  resetTime : ℕ
  deriving DecidableEq, Repr

/-- `resetCallCounter()`: once the minute window has expired, zero the
counter and start a new window. -/
def resetCallCounter (st : RLState) (now : ℕ) : RLState :=
  if st.resetTime ≤ now then { st with callCount := 0, resetTime := now + 60000 } else st

/-- `canMakeApiCall()`: runs `resetCallCounter` (a side effect on the
counter), then admits iff the counter is below `MAX_CALLS_PER_MINUTE` and
at least `MIN_INTERVAL` elapsed since `lastApiCall`. -/
def canMakeApiCall (st : RLState) (now : ℕ) : Bool × RLState :=
  let st2 := resetCallCounter st now
  (decide (st2.callCount < RATE_LIMIT.MAX_CALLS_PER_MINUTE) &&
    decide (st.lastApiCall + RATE_LIMIT.MIN_INTERVAL ≤ now), st2)

/-- `waitForNextCall()`: the caller resumes after
`Math.max(0, MIN_INTERVAL - timeSinceLastCall)` ms, i.e. at
`max now (lastApiCall + MIN_INTERVAL)`.  It does not look at the window
counter. -/
def waitForNextCall (st : RLState) (now : ℕ) : ℕ :=
  max now (st.lastApiCall + RATE_LIMIT.MIN_INTERVAL)

/-- The admission sequence of one cache-missing call executed without
interference: check `canMakeApiCall`, wait if refused, then stamp
`lastApiCall` with the departure time and increment the counter.  This
collapses the caller's two event-loop turns into one step, so it covers
only the serialized special case of the turn-based semantics below
(`exec_check_wake` proves the correspondence): the suspension inside
`await waitForNextCall()` admits interleavings that this single step
cannot represent. -/
def admitCall (st : RLState) (now : ℕ) : ℕ × RLState :=
  let st2 := (canMakeApiCall st now).2
  let dep := if (canMakeApiCall st now).1 then now else waitForNextCall st2 now
  (dep, { st2 with lastApiCall := dep, callCount := st2.callCount + 1 })

/-- Departure times of a sequence of cache-missing vendor calls when
admissions are serialized — each caller finishes its check/wait/stamp
sequence before the next caller starts (`serial_exec` identifies this
with the serialized schedule of the turn-based semantics). -/
def runCalls (st : RLState) : List ℕ → List ℕ
  | [] => []
  | t :: ts => (admitCall st t).1 :: runCalls (admitCall st t).2 ts

/-! #### Event-loop semantics of the admission code

The source is single-threaded but `await waitForNextCall()`
(`getStockPrice`/`getStockHistory`) is a suspension point: a caller that
is refused suspends, other callers' turns run in between, and on resume
the caller stamps the counters and departs with no re-check.  Model: a
caller at index `i` of an arrival-time list runs a `check` turn at its
arrival (the synchronous block containing `canMakeApiCall` and, when
admitted, the stamp) and, when refused, a later `wake` turn (the
synchronous block after the `setTimeout` resolves).  A scheduler chooses
the order of turns; a schedule is realizable by the chronological event
loop when its turn times are non-decreasing. -/

inductive CallerPhase
  | pending
  | waiting (wakeAt : ℕ)
  | departed (t : ℕ)
  deriving DecidableEq, Repr

inductive Turn
  | check (i : ℕ)
  | wake (i : ℕ)
  deriving DecidableEq, Repr

/-- One atomic event-loop turn of the admission code for caller `i`.
A `check` turn runs `canMakeApiCall()` (applying `resetCallCounter`) at
the caller's arrival time and either stamps the counters and departs in
the same turn, or suspends until `waitForNextCall`'s timeout, computed
from the current `lastApiCall`.  A `wake` turn resumes a suspended
caller: it stamps `lastApiCall`/`callCount` at its wake time and departs
without re-checking — the limiter state may have changed meanwhile.
Turns not matching the caller's phase leave everything unchanged. -/
def execTurn (arr : List ℕ) (rl : RLState) (ph : List CallerPhase) :
    Turn → RLState × List CallerPhase
  | .check i =>
    match arr[i]?, ph[i]? with
    | some t, some .pending =>
      if (canMakeApiCall rl t).1 then
        ({ (canMakeApiCall rl t).2 with
            lastApiCall := t
            callCount := (canMakeApiCall rl t).2.callCount + 1 },
          ph.set i (.departed t))
      else
        ((canMakeApiCall rl t).2,
          ph.set i (.waiting (waitForNextCall (canMakeApiCall rl t).2 t)))
    | _, _ => (rl, ph)
  | .wake i =>
    match ph[i]? with
    | some (.waiting w) =>
      ({ rl with lastApiCall := w, callCount := rl.callCount + 1 },
        ph.set i (.departed w))
    | _ => (rl, ph)

/-- Run a schedule of event-loop turns (an interleaving chosen by the
scheduler). -/
def runTurns (arr : List ℕ) (rl : RLState) (ph : List CallerPhase) :
    List Turn → RLState × List CallerPhase
  | [] => (rl, ph)
  | u :: us => runTurns arr (execTurn arr rl ph u).1 (execTurn arr rl ph u).2 us

/-- The instant at which a turn executes (`none` when the turn does not
match its caller's phase): a check at the caller's arrival time, a wake
at the timeout computed on suspension. -/
def turnTime (arr : List ℕ) (ph : List CallerPhase) : Turn → Option ℕ
  | .check i =>
    match ph[i]? with
    | some .pending => arr[i]?
    | _ => none
  | .wake i =>
    match ph[i]? with
    | some (.waiting w) => some w
    | _ => none

/-- The execution instants along a schedule; non-decreasing times mean
the schedule is exactly one the chronological event loop produces. -/
def turnTimes (arr : List ℕ) (rl : RLState) (ph : List CallerPhase) :
    List Turn → List (Option ℕ)
  | [] => []
  | u :: us =>
    turnTime arr ph u ::
      turnTimes arr (execTurn arr rl ph u).1 (execTurn arr rl ph u).2 us

/-- The serialized schedule for callers `k, k+1, ...`: each caller's
check and wake turns run back to back, no caller interleaving with a
suspended one. -/
def serializedTurnsFrom (k : ℕ) : ℕ → List Turn
  | 0 => []
  | m + 1 => .check k :: .wake k :: serializedTurnsFrom (k + 1) m

/-- Departure instants recorded in a phase list, in caller order. -/
def departureTimes (ph : List CallerPhase) : List ℕ :=
  ph.filterMap fun p =>
    match p with
    | .departed d => some d
    | _ => none

/-- The limiter state after a serialized sequence of admissions. -/
def runCallsState (rl : RLState) : List ℕ → RLState
  | [] => rl
  | t :: ts => runCallsState (admitCall rl t).2 ts

/-- Two departures separated by at least `MIN_INTERVAL` milliseconds. -/
def sepBy (a b : ℕ) : Prop := a + RATE_LIMIT.MIN_INTERVAL ≤ b

instance : DecidableRel sepBy := fun a b =>
  inferInstanceAs (Decidable (a + RATE_LIMIT.MIN_INTERVAL ≤ b))

instance : IsTrans ℕ sepBy :=
  ⟨fun a b c hab hbc => by unfold sepBy at *; omega⟩

theorem resetCallCounter_lastApiCall (st : RLState) (now : ℕ) :
    (resetCallCounter st now).lastApiCall = st.lastApiCall := by
  unfold resetCallCounter
  split <;> rfl

theorem admitCall_lastApiCall (st : RLState) (now : ℕ) :
    (admitCall st now).2.lastApiCall = (admitCall st now).1 := rfl

theorem admitCall_dep_ge (st : RLState) (now : ℕ) :
    sepBy st.lastApiCall (admitCall st now).1 := by
  show st.lastApiCall + RATE_LIMIT.MIN_INTERVAL ≤ (admitCall st now).1
  simp only [admitCall]
  split
  next hcan =>
    simp only [canMakeApiCall, Bool.and_eq_true, decide_eq_true_eq] at hcan
    exact hcan.2
  next =>
    have h2 : (canMakeApiCall st now).2 = resetCallCounter st now := rfl
    rw [waitForNextCall, h2, resetCallCounter_lastApiCall]
    exact le_max_right _ _

theorem runCalls_chain (st : RLState) : ∀ arrivals : List ℕ,
    List.Chain' sepBy (runCalls st arrivals) ∧
    ∀ d ∈ runCalls st arrivals, sepBy st.lastApiCall d
  | [] => ⟨List.chain'_nil, by intro d hd; simp [runCalls] at hd⟩
  | t :: ts => by
    have hdep := admitCall_dep_ge st t
    have hlast := admitCall_lastApiCall st t
    have ih := runCalls_chain (admitCall st t).2 ts
    constructor
    · rw [runCalls, List.chain'_cons']
      refine ⟨?_, ih.1⟩
      intro y hy
      have hmem : y ∈ runCalls (admitCall st t).2 ts := List.mem_of_mem_head? hy
      have := ih.2 y hmem
      rw [hlast] at this
      exact this
    · intro d hd
      rw [runCalls, List.mem_cons] at hd
      rcases hd with rfl | hd
      · exact hdep
      · have := ih.2 d hd
        rw [hlast] at this
        unfold sepBy at *
        omega

theorem sep_chain_bound : ∀ (l : List ℕ) (x B : ℕ), List.Chain' sepBy (x :: l) →
    (∀ y ∈ x :: l, y < B) → x + l.length * RATE_LIMIT.MIN_INTERVAL < B
  | [], x, B, _, hB => by simpa using hB x (List.mem_singleton_self x)
  | y :: l, x, B, hchain, hB => by
    have hxy : sepBy x y := (List.chain'_cons.1 hchain).1
    have ih := sep_chain_bound l y B (List.chain'_cons.1 hchain).2
      (fun z hz => hB z (List.mem_cons_of_mem x hz))
    unfold sepBy at hxy
    rw [show RATE_LIMIT.MIN_INTERVAL = 2000 from rfl] at hxy ih ⊢
    simp only [List.length_cons] at ih ⊢
    omega

theorem getElem?_append_length {α : Type} (l₁ : List α) (a : α) (l₂ : List α) :
    (l₁ ++ a :: l₂)[l₁.length]? = some a := by
  induction l₁ with
  | nil => simp
  | cons b l ih => simpa using ih

theorem set_append_length {α : Type} (l₁ : List α) (a b : α) (l₂ : List α) :
    (l₁ ++ a :: l₂).set l₁.length b = l₁ ++ b :: l₂ := by
  induction l₁ with
  | nil => rfl
  | cons c l ih => simp [ih]

theorem admitCall_of_can (rl : RLState) (t : ℕ) (h : (canMakeApiCall rl t).1 = true) :
    admitCall rl t =
      (t, { (canMakeApiCall rl t).2 with
              lastApiCall := t
              callCount := (canMakeApiCall rl t).2.callCount + 1 }) := by
  simp [admitCall, h]

theorem admitCall_of_not_can (rl : RLState) (t : ℕ)
    (h : (canMakeApiCall rl t).1 = false) :
    admitCall rl t =
      (waitForNextCall (canMakeApiCall rl t).2 t,
        { (canMakeApiCall rl t).2 with
            lastApiCall := waitForNextCall (canMakeApiCall rl t).2 t
            callCount := (canMakeApiCall rl t).2.callCount + 1 }) := by
  simp [admitCall, h]

/-- A caller's check turn followed immediately by its wake turn — the
serialized case — has exactly the effect of `admitCall`. -/
theorem exec_check_wake (arrPre : List ℕ) (t : ℕ) (ts : List ℕ)
    (phPre rest : List CallerPhase) (rl : RLState)
    (hlen : arrPre.length = phPre.length) :
    execTurn (arrPre ++ t :: ts)
        (execTurn (arrPre ++ t :: ts) rl (phPre ++ CallerPhase.pending :: rest)
          (Turn.check phPre.length)).1
        (execTurn (arrPre ++ t :: ts) rl (phPre ++ CallerPhase.pending :: rest)
          (Turn.check phPre.length)).2
        (Turn.wake phPre.length) =
      ((admitCall rl t).2, phPre ++ CallerPhase.departed (admitCall rl t).1 :: rest) := by
  have hget : (arrPre ++ t :: ts)[phPre.length]? = some t := by
    rw [← hlen]
    exact getElem?_append_length arrPre t ts
  have hph : (phPre ++ CallerPhase.pending :: rest)[phPre.length]? =
      some CallerPhase.pending := getElem?_append_length phPre _ rest
  cases hcan : (canMakeApiCall rl t).1 with
  | true =>
    rw [admitCall_of_can rl t hcan]
    simp only [execTurn, hget, hph, hcan, if_true, set_append_length,
      getElem?_append_length]
  | false =>
    rw [admitCall_of_not_can rl t hcan]
    simp only [execTurn, hget, hph, hcan, Bool.false_eq_true, if_false,
      set_append_length, getElem?_append_length]

/-- Running the serialized schedule over the event-loop semantics is
exactly the serialized admission sequence `runCalls`. -/
theorem serial_exec : ∀ (arrSuf arrPre : List ℕ) (phPre : List CallerPhase)
    (rl : RLState), arrPre.length = phPre.length →
    runTurns (arrPre ++ arrSuf) rl
        (phPre ++ List.replicate arrSuf.length CallerPhase.pending)
        (serializedTurnsFrom phPre.length arrSuf.length) =
      (runCallsState rl arrSuf, phPre ++ (runCalls rl arrSuf).map CallerPhase.departed)
  | [], arrPre, phPre, rl, _ => by
    simp [runTurns, serializedTurnsFrom, runCallsState, runCalls]
  | t :: ts, arrPre, phPre, rl, hlen => by
    have hstep := exec_check_wake arrPre t ts phPre
      (List.replicate ts.length CallerPhase.pending) rl hlen
    have ih := serial_exec ts (arrPre ++ [t])
      (phPre ++ [CallerPhase.departed (admitCall rl t).1]) (admitCall rl t).2
      (by simp [hlen])
    simp only [List.length_cons, serializedTurnsFrom, List.replicate_succ]
    rw [runTurns, runTurns, hstep]
    dsimp only
    rw [show arrPre ++ t :: ts = (arrPre ++ [t]) ++ ts by simp]
    rw [show phPre ++ CallerPhase.departed (admitCall rl t).1 ::
        List.replicate ts.length CallerPhase.pending =
        (phPre ++ [CallerPhase.departed (admitCall rl t).1]) ++
          List.replicate ts.length CallerPhase.pending by simp]
    rw [show phPre.length + 1 =
        (phPre ++ [CallerPhase.departed (admitCall rl t).1]).length by simp]
    rw [ih]
    simp [runCallsState, runCalls]

theorem departureTimes_map_departed (ts : List ℕ) :
    departureTimes (ts.map CallerPhase.departed) = ts := by
  induction ts with
  | nil => rfl
  | cons t ts ih => simp [departureTimes, List.filterMap_cons] at ih ⊢; exact ih

/-- Along any serialized sequence of admitted vendor calls, every two
departures are at least `MIN_INTERVAL` (2000 ms) apart, and any rolling
window of 60000 ms (the limiter's window length) contains at most
`MAX_CALLS_PER_MINUTE` (30) departures. -/
theorem runCalls_pairwise_window (st : RLState) (arrivals : List ℕ) :
    List.Pairwise sepBy (runCalls st arrivals) ∧
    ∀ t : ℕ, ((runCalls st arrivals).filter
        (fun d => decide (t ≤ d) && decide (d < t + 60000))).length ≤
      RATE_LIMIT.MAX_CALLS_PER_MINUTE := by
  have hchain := (runCalls_chain st arrivals).1
  constructor
  · exact List.chain'_iff_pairwise.1 hchain
  · intro t
    have hsub : List.Sublist ((runCalls st arrivals).filter
        (fun d => decide (t ≤ d) && decide (d < t + 60000))) (runCalls st arrivals) :=
      List.filter_sublist _
    have hchainf := hchain.sublist hsub
    cases hcases : (runCalls st arrivals).filter
        (fun d => decide (t ≤ d) && decide (d < t + 60000)) with
    | nil => simp
    | cons x l =>
      rw [hcases] at hchainf
      have hmem : ∀ y ∈ x :: l, t ≤ y ∧ y < t + 60000 := by
        intro y hy
        rw [← hcases] at hy
        have h2 := List.of_mem_filter hy
        simpa using h2
      have hbound := sep_chain_bound l x (t + 60000) hchainf
        (fun y hy => (hmem y hy).2)
      have hx : t ≤ x := (hmem x (List.mem_cons_self x l)).1
      rw [show RATE_LIMIT.MIN_INTERVAL = 2000 from rfl] at hbound
      rw [show RATE_LIMIT.MAX_CALLS_PER_MINUTE = 30 from rfl]
      simp only [List.length_cons]
      omega

/-- Claim C2 is false as stated: the admission code suspends in
`await waitForNextCall()` and on resume stamps and departs with no
re-check, so two callers (for distinct request keys, hence not collapsed
by the dedup map) that both find the limiter busy compute their waits
from the same `lastApiCall` and depart simultaneously.  Concretely, with
the last call stamped at 10000: caller 0 checks at 10500 and suspends
until 12000, caller 1 checks at 11000 and suspends until 12000, and both
wake and depart at 12000 — 0 ms apart, violating the claimed
`MIN_CALL_INTERVAL` spacing.  The turn times are non-decreasing, so this
schedule is exactly what the chronological event loop produces. -/
theorem claim_C2_counterexample :
    (runTurns [10500, 11000] ⟨10000, 1, 60000⟩
        [CallerPhase.pending, CallerPhase.pending]
        [Turn.check 0, Turn.check 1, Turn.wake 0, Turn.wake 1]).2 =
      [CallerPhase.departed 12000, CallerPhase.departed 12000] ∧
    turnTimes [10500, 11000] ⟨10000, 1, 60000⟩
        [CallerPhase.pending, CallerPhase.pending]
        [Turn.check 0, Turn.check 1, Turn.wake 0, Turn.wake 1] =
      [some 10500, some 11000, some 12000, some 12000] ∧
    ¬sepBy 12000 12000 := by
  refine ⟨by decide, by decide, ?_⟩
  unfold sepBy
  decide

/-- Claim C2 (amended): concurrently refused callers compute their waits
from the same `lastApiCall` and may resume and depart simultaneously
(see the counterexample); when admissions are serialized — no caller
runs its check while another is suspended in `waitForNextCall` — the
claimed guarantees hold: the event-loop semantics under the serialized
schedule departs exactly at the `runCalls` instants, every two
departures are at least `MIN_INTERVAL` (2000 ms) apart, and any rolling
60000 ms window contains at most `MAX_CALLS_PER_MINUTE` (30) departures;
a refused caller suspends until `max(now, lastCallAt + MIN_INTERVAL)`
and then proceeds. -/
theorem claim_C2_amended (rl : RLState) (arrivals : List ℕ) :
    departureTimes (runTurns arrivals rl
        (List.replicate arrivals.length CallerPhase.pending)
        (serializedTurnsFrom 0 arrivals.length)).2 = runCalls rl arrivals ∧
    List.Pairwise sepBy (runCalls rl arrivals) ∧
    ∀ t : ℕ, ((runCalls rl arrivals).filter
        (fun d => decide (t ≤ d) && decide (d < t + 60000))).length ≤
      RATE_LIMIT.MAX_CALLS_PER_MINUTE := by
  refine ⟨?_, runCalls_pairwise_window rl arrivals⟩
  have h := serial_exec arrivals [] [] rl rfl
  simp only [List.nil_append] at h
  rw [show serializedTurnsFrom 0 arrivals.length =
      serializedTurnsFrom (List.length ([] : List CallerPhase)) arrivals.length from rfl,
    h]
  exact departureTimes_map_departed _

/-! ### Cache, history store and market data (src/src/services/api.js) -/

/-- The quote object built by `getStockPrice` from the `/quote` response
(`c, d, dp, h, l, o, pc`) and consumed by `savePriceHistory`.  The source
field `open` is a Lean keyword and is rendered `openPrice`; the string
timestamp `lastUpdated` is presentation-only and omitted. -/
structure PriceData where
  currentPrice : ℚ
  change : ℚ
  changePercent : ℚ
  high : ℚ
  low : ℚ
  openPrice : ℚ
  previousClose : ℚ
  deriving DecidableEq, Repr

structure CacheEntry where
  data : PriceData
  timestamp : ℕ
  deriving DecidableEq, Repr

def getCacheKey (symbol resolution : String) : String := symbol ++ "_" ++ resolution

/-- `getCachedData(key)`: a cache entry is served while
`Date.now() - cached.timestamp < CACHE_DURATION`. -/
def getCachedData (cache : List (String × CacheEntry)) (key : String) (now : ℕ) :
    Option PriceData :=
  match cache.lookup key with
  | some cached => if now < cached.timestamp + RATE_LIMIT.CACHE_DURATION
      then some cached.data else none
  | none => none

/-- `setCachedData(key, data)`: `Map.set` modelled by prepending the
binding; `List.lookup` returns the newest one. -/
def setCachedData (cache : List (String × CacheEntry)) (key : String)
    (data : PriceData) (now : ℕ) : List (String × CacheEntry) :=
  (key, ⟨data, now⟩) :: cache

/-! #### HistoryStore (`savePriceHistory` / `getPriceHistory`) -/

/-- One record of the per-symbol price journal in `localStorage`; `date`
is the calendar day (`YYYY-MM-DD`, modelled as a day index); the string
`timestamp` field is presentation-only and omitted. -/
structure HistoryRecord where
  date : ℕ
  price : ℚ
  change : ℚ
  changePercent : ℚ
  high : ℚ
  low : ℚ
  openPrice : ℚ
  previousClose : ℚ
  deriving DecidableEq, Repr

/-- The record object written by `savePriceHistory` for the current day. -/
def mkHistoryRecord (today : ℕ) (pd : PriceData) : HistoryRecord :=
  ⟨today, pd.currentPrice, pd.change, pd.changePercent, pd.high, pd.low,
    pd.openPrice, pd.previousClose⟩

/-- The `findIndex`-and-replace / `push` step of `savePriceHistory`:
replace the first record carrying today's date, else append at the end. -/
def upsertRecord (rec : HistoryRecord) : List HistoryRecord → List HistoryRecord
  | [] => [rec]
  | r :: rs => if r.date = rec.date then rec :: rs else r :: upsertRecord rec rs

/-- The sort comparator `new Date(a.date) - new Date(b.date)`
(ascending by date; `Array.prototype.sort` is stable). -/
def dateLE (a b : HistoryRecord) : Prop := a.date ≤ b.date

instance : DecidableRel dateLE := fun a b =>
  inferInstanceAs (Decidable (a.date ≤ b.date))

instance : IsTotal HistoryRecord dateLE := ⟨fun a b => Nat.le_total a.date b.date⟩

instance : IsTrans HistoryRecord dateLE := ⟨fun _ _ _ hab hbc => Nat.le_trans hab hbc⟩

/-- The list transformation performed by `savePriceHistory(symbol,
priceData)` on the stored history: upsert today's record, sort ascending
by date (stable insertion sort models the stable JS sort), then
`splice(0, length - MAX_HISTORY_DAYS)` when over the cap. -/
def savePriceHistory (history : List HistoryRecord) (today : ℕ) (pd : PriceData) :
    List HistoryRecord :=
  let h2 := (upsertRecord (mkHistoryRecord today pd) history).insertionSort dateLE
  if MAX_HISTORY_DAYS < h2.length then h2.drop (h2.length - MAX_HISTORY_DAYS) else h2

def PRICE_HISTORY_KEY : String := "stock_price_history"

/-- `getPriceHistory(symbol)`: parse the stored array (empty when the key
is absent), oldest-first as stored. -/
def getPriceHistory (storage : List (String × List HistoryRecord)) (symbol : String) :
    List HistoryRecord :=
  (storage.lookup (PRICE_HISTORY_KEY ++ "_" ++ symbol)).getD []

/-- `savePriceHistory`'s surrounding `localStorage` read/write;
`localStorage.setItem` modelled by prepending the binding. -/
def savePriceHistoryStore (storage : List (String × List HistoryRecord))
    (symbol : String) (today : ℕ) (pd : PriceData) :
    List (String × List HistoryRecord) :=
  (PRICE_HISTORY_KEY ++ "_" ++ symbol,
    savePriceHistory (getPriceHistory storage symbol) today pd) :: storage

/-! #### getStockPrice and getMarketData -/

/-- Errors surfaced by the vendor layer, as classified by the catch block
of `getMarketData`: an HTTP status (`err.response` present), a network
error (`err.request` present, no response), the synchronous
`No data available` error thrown by `getStockPrice`, and request-setup
errors (neither field present). -/
inductive VendorError
  | httpStatus (status : ℕ)
  | networkError
  | noData
  | setupError
  deriving DecidableEq, Repr

/-- Outcome of the `axios.get` call inside `getStockPrice`. -/
inductive FetchOutcome
  | response (q : PriceData)
  | httpError (status : ℕ)
  | networkError
  | setupError
  deriving DecidableEq, Repr

/-- The calendar day of a millisecond timestamp
(`toISOString().split('T')[0]` as a day index). -/
def dayOf (now : ℕ) : ℕ := now / 86400000

structure ApiState where
  cache : List (String × CacheEntry)
  rl : RLState
  storage : List (String × List HistoryRecord)
  deriving DecidableEq, Repr

/-- `getStockPrice(symbol)`: serve a fresh cache entry without touching
the rate limiter; otherwise admit a call through the limiter, perform the
fetch, and on a truthy `response.data.c` save the day's record and cache
the result.  The third component records whether a vendor call departed. -/
def getStockPrice (st : ApiState) (symbol : String) (now : ℕ) (fetch : FetchOutcome) :
    Except VendorError PriceData × ApiState × Bool :=
  match getCachedData st.cache (getCacheKey symbol "price") now with
  | some cached => (.ok cached, st, false)
  | none =>
    let dep := (admitCall st.rl now).1
    let rl2 := (admitCall st.rl now).2
    match fetch with
    | .response q =>
      if q.currentPrice ≠ 0 then
        (.ok q,
          { cache := setCachedData st.cache (getCacheKey symbol "price") q dep,
            rl := rl2,
            storage := savePriceHistoryStore st.storage symbol (dayOf dep) q }, true)
      else (.error .noData, { st with rl := rl2 }, true)
    | .httpError s => (.error (.httpStatus s), { st with rl := rl2 }, true)
    | .networkError => (.error .networkError, { st with rl := rl2 }, true)
    | .setupError => (.error .setupError, { st with rl := rl2 }, true)

/-- One attempt of the retry loop of `getMarketData` (the body of its
`try`): either the combined result material or the caught error. -/
inductive AttemptOutcome
  | ok (pd : PriceData)
  | fail (e : VendorError)
  deriving DecidableEq, Repr

/-- Whether the catch block of `getMarketData` rethrows instead of
retrying: HTTP 401/403 (auth), and errors without `response`/`request`
(setup errors, including the synchronous `No data available` error). -/
def isFatal : VendorError → Bool
  | .httpStatus s => decide (s = 401) || decide (s = 403)
  | .networkError => false
  | .noData => true
  | .setupError => true

/-- The combined result object of `getMarketData`.  Live results carry
`currentPrice` and no `message`; the dummy fallback carries the flagging
`message` and no live quote. -/
structure MarketResult where
  currentPrice : Option ℚ
  history : List ℚ
  message : Option String
  deriving DecidableEq, Repr

/-- Modelled from the spec: the output contract's `degraded` flag
(§6 of the spec).  In the source the synthetic fallback is flagged by the
`message` field attached only by `generateDummyData`. -/
def MarketResult.degraded (r : MarketResult) : Bool := r.message.isSome

/-- `generateDummyData`'s result shape.  The synthetic series values come
from `Math.random`/`Math.sin` and are abstracted as the `series`
parameter; the flagging `message` is attached verbatim. -/
def generateDummyData (series : List ℚ) : MarketResult :=
  { currentPrice := none
    history := series
    message := some "Using dummy data due to API error. Please check your key or plan." }

/-- The `while (retries > 0)` loop of `getMarketData`: a successful
attempt returns the live result (historical series from stored data or
synthesized from the current price, abstracted as `histSeries`); a fatal
error is rethrown; a retryable error (HTTP status other than 401/403,
including 429, or a network error) consumes one retry.  When retries are
exhausted the flagged dummy fallback is returned. -/
def getMarketDataLoop (attempt : ℕ → AttemptOutcome) (histSeries dummySeries : List ℚ) :
    ℕ → ℕ → Except VendorError MarketResult
  | _, 0 => .ok (generateDummyData dummySeries)
  | i, retries + 1 =>
    match attempt i with
    | .ok pd => .ok { currentPrice := some pd.currentPrice
                      history := histSeries
                      message := none }
    | .fail e =>
      if isFatal e then .error e
      else getMarketDataLoop attempt histSeries dummySeries (i + 1) retries

/-- `getMarketData(symbol, timeframe)` (the deduplicated inner function):
run the retry loop with `MAX_RETRIES` retries.  The symbol and timeframe
only select the request key and series sizes and do not affect the
control flow modelled here. -/
def getMarketData (attempt : ℕ → AttemptOutcome) (histSeries dummySeries : List ℚ) :
    Except VendorError MarketResult :=
  getMarketDataLoop attempt histSeries dummySeries 0 RATE_LIMIT.MAX_RETRIES

/-! ### Lemmas about the retry loop, cache and history store -/

theorem getMarketDataLoop_fail_retryable {attempt : ℕ → AttemptOutcome}
    {histSeries dummySeries : List ℚ} {i retries : ℕ} {e : VendorError}
    (he : attempt i = .fail e) (hf : isFatal e = false) :
    getMarketDataLoop attempt histSeries dummySeries i (retries + 1) =
      getMarketDataLoop attempt histSeries dummySeries (i + 1) retries := by
  rw [getMarketDataLoop, he]
  simp [hf]

theorem getMarketDataLoop_fail_fatal {attempt : ℕ → AttemptOutcome}
    {histSeries dummySeries : List ℚ} {i retries : ℕ} {e : VendorError}
    (he : attempt i = .fail e) (hf : isFatal e = true) :
    getMarketDataLoop attempt histSeries dummySeries i (retries + 1) = .error e := by
  rw [getMarketDataLoop, he]
  simp [hf]

theorem upsertRecord_map_date_mem (rec : HistoryRecord) (l : List HistoryRecord)
    (h : rec.date ∈ l.map (·.date)) :
    (upsertRecord rec l).map (·.date) = l.map (·.date) := by
  induction l with
  | nil => simp at h
  | cons r rs ih =>
    rw [upsertRecord]
    by_cases hd : r.date = rec.date
    · rw [if_pos hd]
      simp [hd]
    · rw [if_neg hd]
      have hm : rec.date ∈ rs.map (·.date) := by
        rw [List.map_cons] at h
        rcases List.mem_cons.1 h with h1 | h1
        · exact absurd h1.symm hd
        · exact h1
      simp [ih hm]

theorem upsertRecord_map_date_not_mem (rec : HistoryRecord) (l : List HistoryRecord)
    (h : rec.date ∉ l.map (·.date)) :
    (upsertRecord rec l).map (·.date) = l.map (·.date) ++ [rec.date] := by
  induction l with
  | nil => simp [upsertRecord]
  | cons r rs ih =>
    rw [upsertRecord]
    have hd : ¬r.date = rec.date := by
      intro he
      exact h (by simp [he])
    rw [if_neg hd]
    have hm : rec.date ∉ rs.map (·.date) := fun hx => h (by simp [hx])
    simp [ih hm]

theorem upsertRecord_nodup (rec : HistoryRecord) (l : List HistoryRecord)
    (h : (l.map (·.date)).Nodup) : ((upsertRecord rec l).map (·.date)).Nodup := by
  by_cases hm : rec.date ∈ l.map (·.date)
  · rw [upsertRecord_map_date_mem rec l hm]
    exact h
  · rw [upsertRecord_map_date_not_mem rec l hm]
    simp [List.nodup_append, h, hm]

theorem upsertRecord_length_mem (rec : HistoryRecord) (l : List HistoryRecord)
    (hm : rec.date ∈ l.map (·.date)) : (upsertRecord rec l).length = l.length := by
  have h := congrArg List.length (upsertRecord_map_date_mem rec l hm)
  simpa using h

theorem upsertRecord_length_le (rec : HistoryRecord) (l : List HistoryRecord) :
    (upsertRecord rec l).length ≤ l.length + 1 := by
  by_cases hm : rec.date ∈ l.map (·.date)
  · rw [upsertRecord_length_mem rec l hm]
    omega
  · have h := congrArg List.length (upsertRecord_map_date_not_mem rec l hm)
    simp at h
    omega

theorem upsertRecord_filter (rec : HistoryRecord) (l : List HistoryRecord)
    (h : (l.map (·.date)).Nodup) :
    (upsertRecord rec l).filter (fun r => decide (r.date = rec.date)) = [rec] := by
  induction l with
  | nil => simp [upsertRecord]
  | cons r rs ih =>
    rw [upsertRecord]
    by_cases hd : r.date = rec.date
    · rw [if_pos hd]
      have hnotin : r.date ∉ rs.map (·.date) :=
        (List.nodup_cons.1 (by simpa using h)).1
      rw [List.filter_cons_of_pos (by simp)]
      have hnil : List.filter (fun x => decide (x.date = rec.date)) rs = [] := by
        apply List.filter_eq_nil_iff.2
        intro a ha
        simp only [decide_eq_true_eq]
        intro he
        exact hnotin (by
          rw [hd, ← he]
          exact List.mem_map_of_mem (·.date) ha)
      simp [hnil]
    · rw [if_neg hd]
      have h2 : (rs.map (·.date)).Nodup := (List.nodup_cons.1 (by simpa using h)).2
      rw [List.filter_cons_of_neg (by simp [hd])]
      exact ih h2

theorem savePriceHistory_no_trim (history : List HistoryRecord) (today : ℕ)
    (pd : PriceData)
    (h : (upsertRecord (mkHistoryRecord today pd) history).length ≤ MAX_HISTORY_DAYS) :
    savePriceHistory history today pd =
      (upsertRecord (mkHistoryRecord today pd) history).insertionSort dateLE := by
  simp only [savePriceHistory]
  rw [if_neg (by rw [List.length_insertionSort]; omega)]

theorem savePriceHistory_nodup (history : List HistoryRecord) (today : ℕ)
    (pd : PriceData) (h : (history.map (·.date)).Nodup) :
    ((savePriceHistory history today pd).map (·.date)).Nodup := by
  have h1 := upsertRecord_nodup (mkHistoryRecord today pd) history h
  have hperm := List.perm_insertionSort dateLE (upsertRecord (mkHistoryRecord today pd) history)
  have h2 : (((upsertRecord (mkHistoryRecord today pd) history).insertionSort
      dateLE).map (·.date)).Nodup := ((hperm.map (·.date)).nodup_iff).2 h1
  simp only [savePriceHistory]
  split
  · refine List.Nodup.sublist ?_ h2
    exact (List.drop_sublist _ _).map _
  · exact h2

theorem savePriceHistory_sorted (history : List HistoryRecord) (today : ℕ)
    (pd : PriceData) : (savePriceHistory history today pd).Sorted dateLE := by
  have hs := List.sorted_insertionSort dateLE (upsertRecord (mkHistoryRecord today pd) history)
  simp only [savePriceHistory]
  split
  · exact hs.sublist (List.drop_sublist _ _)
  · exact hs

theorem savePriceHistory_length (history : List HistoryRecord) (today : ℕ)
    (pd : PriceData) : (savePriceHistory history today pd).length ≤ MAX_HISTORY_DAYS := by
  simp only [savePriceHistory]
  split
  next hlen => rw [List.length_drop]; omega
  next hlen => omega

theorem getStockPrice_miss_calls (st : ApiState) (symbol : String) (now : ℕ)
    (fetch : FetchOutcome)
    (hmiss : getCachedData st.cache (getCacheKey symbol "price") now = none) :
    (getStockPrice st symbol now fetch).2.2 = true := by
  cases fetch with
  | response q =>
    simp only [getStockPrice, hmiss]
    split <;> rfl
  | httpError s => simp only [getStockPrice, hmiss]
  | networkError => simp only [getStockPrice, hmiss]
  | setupError => simp only [getStockPrice, hmiss]

theorem savePriceHistory_filter_today (history : List HistoryRecord) (today : ℕ)
    (pd : PriceData) (h : (history.map (·.date)).Nodup)
    (hlen : (upsertRecord (mkHistoryRecord today pd) history).length ≤ MAX_HISTORY_DAYS) :
    (savePriceHistory history today pd).filter (fun r => decide (r.date = today)) =
      [mkHistoryRecord today pd] := by
  rw [savePriceHistory_no_trim history today pd hlen]
  have hperm := List.perm_insertionSort dateLE (upsertRecord (mkHistoryRecord today pd) history)
  have hfil := upsertRecord_filter (mkHistoryRecord today pd) history h
  have hp2 := hperm.filter (fun r => decide (r.date = today))
  rw [show (fun r : HistoryRecord => decide (r.date = today)) =
      (fun r : HistoryRecord => decide (r.date = (mkHistoryRecord today pd).date)) from rfl,
    hfil] at hp2
  exact List.perm_singleton.1 hp2

/-! ### Claim theorems: request governor and market data -/

/-- Claim C1: when every vendor attempt fails with a retryable error,
after `MAX_RETRIES` (2) failed attempts `getMarketData` returns the
flagged dummy fallback (`degraded = true`, the synthetic series) instead
of throwing; an HTTP 401 or 403 on the first attempt makes it throw
immediately, whatever the later attempts would have produced (no retry). -/
theorem claim_C1_retry_fallback_auth_throws :
    (∀ (attempt : ℕ → AttemptOutcome) (histSeries dummySeries : List ℚ),
      (∀ i, i < RATE_LIMIT.MAX_RETRIES → ∃ e, attempt i = .fail e ∧ isFatal e = false) →
      getMarketData attempt histSeries dummySeries = .ok (generateDummyData dummySeries) ∧
        (generateDummyData dummySeries).degraded = true) ∧
    (∀ (attempt : ℕ → AttemptOutcome) (histSeries dummySeries : List ℚ) (s : ℕ),
      (s = 401 ∨ s = 403) → attempt 0 = .fail (.httpStatus s) →
      getMarketData attempt histSeries dummySeries = .error (.httpStatus s)) := by
  constructor
  · intro attempt histSeries dummySeries hfail
    obtain ⟨e0, he0, hf0⟩ := hfail 0 (by norm_num [RATE_LIMIT])
    obtain ⟨e1, he1, hf1⟩ := hfail 1 (by norm_num [RATE_LIMIT])
    refine ⟨?_, rfl⟩
    show getMarketDataLoop attempt histSeries dummySeries 0 (1 + 1) = _
    rw [getMarketDataLoop_fail_retryable he0 hf0]
    show getMarketDataLoop attempt histSeries dummySeries 1 (0 + 1) = _
    rw [getMarketDataLoop_fail_retryable he1 hf1]
    rfl
  · intro attempt histSeries dummySeries s hs h0
    show getMarketDataLoop attempt histSeries dummySeries 0 (1 + 1) = _
    exact getMarketDataLoop_fail_fatal h0
      (by rcases hs with rfl | rfl <;> simp [isFatal])

theorem claim_C1_retry_fallback_auth_throws_witness :
    getMarketData (fun _ => .fail .networkError) [] [] = .ok (generateDummyData []) ∧
    getMarketData (fun _ => .fail (.httpStatus 401)) [] [] =
      .error (.httpStatus 401) :=
  ⟨(claim_C1_retry_fallback_auth_throws.1 (fun _ => .fail .networkError) [] []
      (fun _ _ => ⟨.networkError, rfl, rfl⟩)).1,
    claim_C1_retry_fallback_auth_throws.2 (fun _ => .fail (.httpStatus 401)) [] []
      401 (Or.inl rfl) rfl⟩

/-- Claim C6: a cache entry with `now - storedAt < CACHE_DURATION` is
served as-is — the cached payload is returned, no vendor call departs,
and the whole state (in particular `lastApiCall` and `callCount`) is
untouched.  With the 60000 ms TTL and an entry stored at `t = 0`, a
lookup at `t = 59999` is a hit and a lookup at `t = 60001` is a miss that
triggers a re-fetch. -/
theorem claim_C6_cache_hit_frame :
    (∀ (st : ApiState) (symbol : String) (now : ℕ) (fetch : FetchOutcome)
        (entry : CacheEntry),
      st.cache.lookup (getCacheKey symbol "price") = some entry →
      now < entry.timestamp + RATE_LIMIT.CACHE_DURATION →
      getStockPrice st symbol now fetch = (.ok entry.data, st, false)) ∧
    (∀ fetch : FetchOutcome,
      getStockPrice
          ⟨[(getCacheKey "AAPL" "price", ⟨⟨190, 2, 1, 195, 185, 188, 188⟩, 0⟩)],
            ⟨0, 0, 60000⟩, []⟩ "AAPL" 59999 fetch =
        (.ok ⟨190, 2, 1, 195, 185, 188, 188⟩,
          ⟨[(getCacheKey "AAPL" "price", ⟨⟨190, 2, 1, 195, 185, 188, 188⟩, 0⟩)],
            ⟨0, 0, 60000⟩, []⟩, false)) ∧
    (∀ fetch : FetchOutcome,
      (getStockPrice
          ⟨[(getCacheKey "AAPL" "price", ⟨⟨190, 2, 1, 195, 185, 188, 188⟩, 0⟩)],
            ⟨0, 0, 60000⟩, []⟩ "AAPL" 60001 fetch).2.2 = true) := by
  refine ⟨?_, ?_, ?_⟩
  · intro st symbol now fetch entry hlook hfresh
    have hc : getCachedData st.cache (getCacheKey symbol "price") now =
        some entry.data := by
      simp only [getCachedData, hlook]
      rw [if_pos hfresh]
    simp only [getStockPrice, hc]
  · intro fetch
    rfl
  · intro fetch
    exact getStockPrice_miss_calls _ "AAPL" 60001 fetch rfl

/-- Claim C9: after an upsert the stored history has pairwise-distinct
calendar dates, is sorted ascending by date, holds at most
`MAX_HISTORY_DAYS` records and is a suffix of the sorted upserted list
(trimming drops the oldest from the front); a second same-day upsert
leaves exactly one record for that date, carrying the latest values; and
a read after a store returns exactly the stored (oldest-first) list. -/
theorem claim_C9_history_store_invariants :
    (∀ (history : List HistoryRecord) (today : ℕ) (pd : PriceData),
      (history.map (·.date)).Nodup →
      ((savePriceHistory history today pd).map (·.date)).Nodup ∧
        (savePriceHistory history today pd).Sorted dateLE ∧
        (savePriceHistory history today pd).length ≤ MAX_HISTORY_DAYS ∧
        List.IsSuffix (savePriceHistory history today pd)
          ((upsertRecord (mkHistoryRecord today pd) history).insertionSort dateLE)) ∧
    (∀ (history : List HistoryRecord) (today : ℕ) (pd1 pd2 : PriceData),
      (history.map (·.date)).Nodup → history.length < MAX_HISTORY_DAYS →
      (savePriceHistory (savePriceHistory history today pd1) today pd2).filter
          (fun r => decide (r.date = today)) = [mkHistoryRecord today pd2]) ∧
    (∀ (storage : List (String × List HistoryRecord)) (symbol : String)
        (today : ℕ) (pd : PriceData),
      getPriceHistory (savePriceHistoryStore storage symbol today pd) symbol =
        savePriceHistory (getPriceHistory storage symbol) today pd) := by
  refine ⟨?_, ?_, ?_⟩
  · intro history today pd h
    refine ⟨savePriceHistory_nodup history today pd h,
      savePriceHistory_sorted history today pd,
      savePriceHistory_length history today pd, ?_⟩
    simp only [savePriceHistory]
    split
    · exact ⟨List.take _ _, List.take_append_drop _ _⟩
    · exact ⟨[], rfl⟩
  · intro history today pd1 pd2 h hlen
    have hlen1 : (upsertRecord (mkHistoryRecord today pd1) history).length ≤
        MAX_HISTORY_DAYS := by
      have := upsertRecord_length_le (mkHistoryRecord today pd1) history
      omega
    have hfil1 := savePriceHistory_filter_today history today pd1 h hlen1
    have hnd1 := savePriceHistory_nodup history today pd1 h
    have hmem1 : mkHistoryRecord today pd1 ∈ savePriceHistory history today pd1 := by
      apply List.mem_of_mem_filter (p := fun r => decide (r.date = today))
      rw [hfil1]
      exact List.mem_singleton_self _
    have hdate1 : today ∈ (savePriceHistory history today pd1).map (·.date) := by
      have := List.mem_map_of_mem (·.date) hmem1
      simpa [mkHistoryRecord] using this
    have hlen2 : (upsertRecord (mkHistoryRecord today pd2)
        (savePriceHistory history today pd1)).length ≤ MAX_HISTORY_DAYS := by
      rw [upsertRecord_length_mem (mkHistoryRecord today pd2) _ hdate1]
      exact savePriceHistory_length history today pd1
    exact savePriceHistory_filter_today _ today pd2 hnd1 hlen2
  · intro storage symbol today pd
    simp [getPriceHistory, savePriceHistoryStore]

theorem claim_C9_history_store_invariants_witness :
    (savePriceHistory (savePriceHistory [] 5 ⟨1, 1, 1, 1, 1, 1, 1⟩) 5
        ⟨2, 2, 2, 2, 2, 2, 2⟩).filter (fun r => decide (r.date = 5)) =
      [mkHistoryRecord 5 ⟨2, 2, 2, 2, 2, 2, 2⟩] ∧
    ((savePriceHistory [] 5 ⟨1, 1, 1, 1, 1, 1, 1⟩).map (·.date)).Nodup :=
  ⟨claim_C9_history_store_invariants.2.1 [] 5 ⟨1, 1, 1, 1, 1, 1, 1⟩
      ⟨2, 2, 2, 2, 2, 2, 2⟩ (by simp) (by norm_num [MAX_HISTORY_DAYS]),
    (claim_C9_history_store_invariants.1 [] 5 ⟨1, 1, 1, 1, 1, 1, 1⟩ (by simp)).1⟩

theorem claim_C6_cache_hit_frame_witness :
    getStockPrice
        ⟨[(getCacheKey "AAPL" "price", ⟨⟨190, 2, 1, 195, 185, 188, 188⟩, 0⟩)],
          ⟨0, 0, 60000⟩, []⟩ "AAPL" 59999 .networkError =
      (.ok ⟨190, 2, 1, 195, 185, 188, 188⟩,
        ⟨[(getCacheKey "AAPL" "price", ⟨⟨190, 2, 1, 195, 185, 188, 188⟩, 0⟩)],
          ⟨0, 0, 60000⟩, []⟩, false) :=
  claim_C6_cache_hit_frame.1
    ⟨[(getCacheKey "AAPL" "price", ⟨⟨190, 2, 1, 195, 185, 188, 188⟩, 0⟩)],
      ⟨0, 0, 60000⟩, []⟩ "AAPL" 59999 .networkError ⟨⟨190, 2, 1, 195, 185, 188, 188⟩, 0⟩
    (by simp) (by norm_num [RATE_LIMIT])

end Analike
